import Mathlib

/-!
Verification development for the comic-index and page-retrieval server
(src/server.js).  The JavaScript source is shallowly embedded: the pure
helpers (path manipulation, entry classification, MIME lookup, parseInt)
become Lean functions, and the stateful parts (the global comicsDB array,
the durable JSON snapshot, cover-file writes) become explicit state passing
over a ScanState record, with filesystem outcomes supplied by an Env of
oracle functions.  Archive bytes are lists of naturals.
-/

/- ### Model of the Node path helpers used by the source -/

/-- Characters of the basename of a path: the segment after the last slash.
A left fold that resets its accumulator at every slash. -/
def afterLastSlash (l : List Char) : List Char :=
  l.foldl (fun acc c => if c = '/' then [] else acc ++ [c]) []

/-- Extension of a basename, following Node path.extname: the suffix that
starts at the last dot, unless that dot is absent or is the first character
of the basename (a dotfile has no extension). -/
def extOfBase (base : List Char) : List Char :=
  let rev := base.reverse
  let afterDot := rev.takeWhile (fun c => c ≠ '.')
  let upToDot := rev.dropWhile (fun c => c ≠ '.')
  if 2 ≤ upToDot.length then '.' :: afterDot.reverse else []

/-- Model of Node path.extname applied to a path string. -/
def pathExtname (p : String) : String :=
  ⟨extOfBase (afterLastSlash p.data)⟩

/-- Model of Node path.join for the two-argument uses in the source
(directory, file name): the concatenation with a slash separator. -/
def pathJoin (a b : String) : String :=
  a ++ "/" ++ b

/-- Model of Node path.parse(p).name: the basename without its extension,
used by the source to derive a comic title from its file name. -/
def pathParseName (p : String) : String :=
  let base := afterLastSlash p.data
  ⟨base.take (base.length - (extOfBase base).length)⟩

/-- Model of JavaScript String.prototype.toLowerCase for the ASCII strings
in play: lowercase every character. -/
def strToLower (s : String) : String :=
  ⟨s.data.map Char.toLower⟩

/- ### Model of JavaScript String.prototype.localeCompare

The source sorts zip entries with a.name.localeCompare(b.name).  Modelled
from ECMA-402 / the ICU root collation, restricted to the ASCII strings
that occur as archive entry names: the primary pass compares the strings
with letter case folded away (for ASCII, the code points of the lowercased
characters; punctuation and digits keep their relative code-point order),
and only on a primary tie does the tertiary pass compare the case pattern,
lowercase before uppercase.  This is the default (root-locale) behaviour of
Node with ICU and is deterministic across calls. -/

/-- Three-way comparison of naturals. -/
def natCmp (a b : Nat) : Ordering :=
  if a < b then .lt else if b < a then .gt else .eq

/-- Lexicographic three-way comparison of lists of naturals. -/
def lexCmp : List Nat → List Nat → Ordering
  | [], [] => .eq
  | [], _ :: _ => .lt
  | _ :: _, [] => .gt
  | a :: as, b :: bs =>
    match natCmp a b with
    | .eq => lexCmp as bs
    | o => o

/-- Primary collation key of a string: code points of the lowercased
characters. -/
def strPrim (s : String) : List Nat :=
  s.data.map (fun c => c.toLower.toNat)

/-- Tertiary collation key of a string: the case pattern, with lowercase
weighted below uppercase. -/
def strCase (s : String) : List Nat :=
  s.data.map (fun c => if c.isUpper then 1 else 0)

/-- Model of s.localeCompare(t) as a three-way Ordering: primary key first,
tertiary key on ties. -/
def locCmp (s t : String) : Ordering :=
  match lexCmp (strPrim s) (strPrim t) with
  | .eq => lexCmp (strCase s) (strCase t)
  | o => o

/- ### Archive entries and the image classifier (src/server.js lines 24-25, 64-67, 122-125) -/

/-- One entry of a zip archive as exposed by adm-zip: a name, a directory
flag, and the decompressed bytes returned by zip.readFile. -/
structure ZipEntry where
  name : String
  isDirectory : Bool
  data : List Nat
deriving DecidableEq, Repr

/-- The IMAGE_EXTENSIONS set of src/server.js line 25. -/
def IMAGE_EXTENSIONS : List String :=
  [".jpg", ".jpeg", ".png", ".gif", ".webp"]

/-- The entry ordering the source's sort comparator induces:
a.name.localeCompare(b.name) is not positive. -/
def locRelZ (a b : ZipEntry) : Prop :=
  locCmp a.name b.name ≠ Ordering.gt

instance : DecidableRel locRelZ :=
  fun a b => inferInstanceAs (Decidable ¬(locCmp a.name b.name = Ordering.gt))



/-- Boolean filter of the classifier pipeline: the entry is not a directory
and its lowercased extension is in IMAGE_EXTENSIONS.  The source applies
this as two successive Array.prototype.filter calls. -/
def isImageEntry (e : ZipEntry) : Bool :=
  !e.isDirectory && IMAGE_EXTENSIONS.contains (strToLower (pathExtname e.name))

/-- The classifier used identically in processNewComic (lines 64-67) and in
the page route (lines 122-125): filter out directories, filter to the
recognized image extensions, then sort with the localeCompare comparator.
V8's Array.prototype.sort is stable, and insertionSort is the corresponding
stable sort. -/
def classifyImages (zipEntries : List ZipEntry) : List ZipEntry :=
  List.insertionSort locRelZ
    ((zipEntries.filter (fun e => !e.isDirectory)).filter
      (fun e => IMAGE_EXTENSIONS.contains (strToLower (pathExtname e.name))))

/- ### Comic records and the scan/index state (src/server.js lines 21-28, 44-94) -/

/-- A ComicRecord exactly as built at src/server.js lines 76-85. -/
structure ComicRecord where
  id : String
  fileName : String
  filePath : String
  title : String
  cover : String
  pageCount : Nat
  addedAt : String
  tags : List String
deriving DecidableEq, Repr

/-- Error outcomes the embedded operations can raise (JavaScript throws). -/
inductive JsError where
  | archiveUnreadable
  | coverWriteFailure
  | persistFailure
deriving DecidableEq, Repr

/-- Observable side effects of a scan, in program order: opening an archive,
writing a cover file, pushing a record onto comicsDB, rewriting the durable
snapshot. -/
inductive Event where
  | openArchive (path : String)
  | coverWrite (path : String) (data : List Nat)
  | appendRec (r : ComicRecord)
  | persistSnapshot (db : List ComicRecord)
deriving DecidableEq, Repr

/-- Environment oracles for the effectful steps: archive contents by path
(none models an unreadable archive, i.e. the AdmZip constructor throwing),
whether a filesystem path exists, whether writing a given cover file
succeeds, whether rewriting the durable snapshot succeeds, the uuid stream,
and the current timestamp. -/
structure Env where
  archives : String → Option (List ZipEntry)
  fileExists : String → Bool
  coverWriteOk : String → Bool
  persistOk : Bool
  newId : Nat → String
  now : String

/-- Mutable state of the server: the in-memory comicsDB array, the logical
content of the durable comics.json snapshot, how many uuids were consumed,
and the effect trace. -/
structure ScanState where
  mem : List ComicRecord
  disk : List ComicRecord
  nextId : Nat
  events : List Event
deriving DecidableEq, Repr

/-- Model of the __dirname constant of the server process. -/
def dirnameVal : String := "/app"

/-- COMICS_DIR of src/server.js line 21. -/
def COMICS_DIR : String := pathJoin dirnameVal "comics"

/-- The covers directory path.join(__dirname, 'public', 'covers') of line 88. -/
def coversDir : String := pathJoin (pathJoin dirnameVal "public") "covers"

/-- Cover-file path path.join(__dirname, 'public', 'covers', id + '.jpg')
of src/server.js lines 87-88. -/
def coverPathFor (id : String) : String :=
  pathJoin coversDir (id ++ ".jpg")

/-- The comic record built at src/server.js lines 76-85, with the cover
reference of line 90 already assigned (the intermediate record with
cover = '' is never observable: it is mutated before being pushed). -/
def builtRecord (env : Env) (st : ScanState) (fileName : String) (pageCount : Nat) :
    ComicRecord :=
  { id := env.newId st.nextId
    fileName := fileName
    filePath := pathJoin COMICS_DIR fileName
    title := pathParseName fileName
    cover := "/covers/" ++ (env.newId st.nextId ++ ".jpg")
    pageCount := pageCount
    addedAt := env.now
    tags := [] }

/-- Embedding of processNewComic (src/server.js lines 58-94).  Opens the
archive, classifies its entries, returns early on an empty image list,
otherwise generates an id, writes the cover, assigns the cover reference,
pushes the record onto comicsDB and rewrites the durable snapshot.  A throw
at any step is surfaced as (state so far, some error): JavaScript exceptions
do not roll back the comicsDB mutation already performed. -/
def processNewComic (env : Env) (st : ScanState) (fileName : String) :
    ScanState × Option JsError :=
  let filePath := pathJoin COMICS_DIR fileName
  let stOpened : ScanState := { st with events := st.events ++ [Event.openArchive filePath] }
  match env.archives filePath with
  | none => (stOpened, some JsError.archiveUnreadable)
  | some zipEntries =>
    match classifyImages zipEntries with
    | [] => (stOpened, none)
    | coverImage :: restImages =>
      let coverPath := coverPathFor (env.newId st.nextId)
      if env.coverWriteOk coverPath then
        let comicRecord := builtRecord env st fileName (coverImage :: restImages).length
        let mem1 := st.mem ++ [comicRecord]
        let st1 : ScanState :=
          { mem := mem1
            disk := st.disk
            nextId := st.nextId + 1
            events := stOpened.events ++
              [Event.coverWrite coverPath coverImage.data, Event.appendRec comicRecord] }
        if env.persistOk then
          ({ st1 with disk := mem1, events := st1.events ++ [Event.persistSnapshot mem1] },
           none)
        else (st1, some JsError.persistFailure)
      else ({ stOpened with nextId := st.nextId + 1 }, some JsError.coverWriteFailure)

/-- The for-of loop of scanComicsDirectory (lines 49-54): for each file with
no record of the same fileName, process it; a thrown error aborts the loop
and propagates, carrying the state mutated so far. -/
def scanLoop (env : Env) (st : ScanState) : List String → ScanState × Option JsError
  | [] => (st, none)
  | file :: rest =>
    match st.mem.find? (fun c => c.fileName == file) with
    | some _ => scanLoop env st rest
    | none =>
      match processNewComic env st file with
      | (st1, none) => scanLoop env st1 rest
      | (st1, some e) => (st1, some e)

/-- Embedding of scanComicsDirectory (src/server.js lines 45-55): restrict
the directory listing to files whose lowercased extension is .zip, then run
the reconciliation loop. -/
def scanComicsDirectory (env : Env) (st : ScanState) (files : List String) :
    ScanState × Option JsError :=
  scanLoop env st (files.filter (fun file => strToLower (pathExtname file) == ".zip"))

/- ### The page route (src/server.js lines 97-167) -/

/-- Result of the page route, by response: a 200 with Content-Type and raw
bytes, the two 404 branches, the 400 branch, or the catch-all 500. -/
inductive PageResult where
  | page (mimeType : String) (body : List Nat)
  | comicNotFound
  | fileNotFound
  | invalidPage
  | serverError
deriving DecidableEq, Repr

/-- HTTP status code the route sends for each result. -/
def statusOf : PageResult → Nat
  | .page _ _ => 200
  | .comicNotFound => 404
  | .fileNotFound => 404
  | .invalidPage => 400
  | .serverError => 500

/-- Model of JavaScript parseInt(s, 10): skip leading whitespace, an
optional sign, then a maximal run of decimal digits; none models NaN (no
digits found). -/
def jsParseInt (s : String) : Option Int :=
  let l := s.data.dropWhile (fun c =>
    c = ' ' ∨ c = '\t' ∨ c = '\n' ∨ c = '\r' ∨ c.toNat = 11 ∨ c.toNat = 12)
  let signAndRest : Int × List Char :=
    match l with
    | '-' :: t => (-1, t)
    | '+' :: t => (1, t)
    | _ => (1, l)
  let ds := signAndRest.2.takeWhile Char.isDigit
  if ds.isEmpty then none
  else some (signAndRest.1 * (ds.foldl (fun a c => a * 10 + (c.toNat - 48)) 0 : Nat))

/-- JavaScript comparison pageIndex < bound: false when pageIndex is NaN. -/
def jsNumLt (n : Option Int) (bound : Int) : Bool :=
  match n with
  | some i => i < bound
  | none => false

/-- JavaScript comparison pageIndex >= length: false when pageIndex is NaN. -/
def jsNumGe (n : Option Int) (bound : Nat) : Bool :=
  match n with
  | some i => (bound : Int) ≤ i
  | none => false

/-- JavaScript array indexing images[pageIndex]: undefined (none) when the
index is NaN or out of range. -/
def jsIndexGet (l : List ZipEntry) : Option Int → Option ZipEntry
  | none => none
  | some i =>
    if h : 0 ≤ i ∧ i.toNat < l.length then some (l.get ⟨i.toNat, h.2⟩) else none

/-- The mimeType lookup object of src/server.js lines 149-155, with its
application/octet-stream fallback. -/
def mimeFor : String → String
  | ".jpg" => "image/jpeg"
  | ".jpeg" => "image/jpeg"
  | ".png" => "image/png"
  | ".gif" => "image/gif"
  | ".webp" => "image/webp"
  | _ => "application/octet-stream"

/-- Embedding of the GET /api/comic/:id/page/:pageNumber handler
(src/server.js lines 97-167).  Returns the response together with the
comicsDB array after the request (the handler never mutates it).  Branches,
in source order: parseInt the page number; find the record by id (404);
check the archive file still exists (404); open the archive (a throw is
caught and sent as 500); classify; the bounds test pageIndex < 0 or
pageIndex >= images.length (400) — with NaN both comparisons are false, so
a NaN index falls through to images[NaN] = undefined, whose property access
throws and is caught as 500; otherwise send the entry's bytes with the
mapped Content-Type. -/
def getPage (env : Env) (comicsDB : List ComicRecord) (id pageNumber : String) :
    PageResult × List ComicRecord :=
  let pageIndex := jsParseInt pageNumber
  match comicsDB.find? (fun c => c.id == id) with
  | none => (.comicNotFound, comicsDB)
  | some comic =>
    if env.fileExists comic.filePath then
      match env.archives comic.filePath with
      | none => (.serverError, comicsDB)
      | some zipEntries =>
        let images := classifyImages zipEntries
        if jsNumLt pageIndex 0 || jsNumGe pageIndex images.length then
          (.invalidPage, comicsDB)
        else
          match jsIndexGet images pageIndex with
          | none => (.serverError, comicsDB)
          | some image =>
            (.page (mimeFor (strToLower (pathExtname image.name))) image.data, comicsDB)
    else (.fileNotFound, comicsDB)

/- ### Startup load (src/server.js lines 31-42) -/

/-- Outcome of reading the durable comics.json file at startup. -/
inductive ReadResult where
  | enoent
  | readOk (content : String)
  | otherError
deriving DecidableEq, Repr

/-- What the load phase of the startup function leaves behind: the
in-memory comicsDB, what (if anything) was written to comics.json, and the
error the load phase raised (the try/catch of lines 32-39 swallows every
read or parse error, so this is none on all paths). -/
structure LoadOutcome where
  db : List ComicRecord
  wrote : Option String
  fatal : Option JsError
deriving DecidableEq, Repr

/-- Embedding of the load phase of the startup function initialize
(src/server.js lines 31-42), parameterized by the JSON.parse model: on a
successful read, comicsDB is assigned the parse result; a parse failure
throws into the catch block, whose only action is writing '[]' when
err.code is 'ENOENT' — a SyntaxError has no such code, so nothing happens
and comicsDB keeps its initial [] value; a missing file writes '[]'. -/
def startupLoad (parse : String → Option (List ComicRecord)) :
    ReadResult → LoadOutcome
  | .readOk content =>
    match parse content with
    | some db => { db := db, wrote := none, fatal := none }
    | none => { db := [], wrote := none, fatal := none }
  | .enoent => { db := [], wrote := some "[]", fatal := none }
  | .otherError => { db := [], wrote := none, fatal := none }

/- ### Claim-side definitions (worded from the spec, for comparison) -/

/-- Byte-wise lexicographic string order, as the spec's sentence "sort ...
using byte-wise/locale-insensitive lexicographic comparison" words it:
compare the raw code points. -/
def byteRelZ (a b : ZipEntry) : Prop :=
  lexCmp (a.name.data.map Char.toNat) (b.name.data.map Char.toNat) ≠ Ordering.gt

instance : DecidableRel byteRelZ :=
  fun a b =>
    inferInstanceAs
      (Decidable ¬(lexCmp (a.name.data.map Char.toNat) (b.name.data.map Char.toNat) =
        Ordering.gt))

/-- The classifier as claim C1 states it: the qualifying entries sorted
byte-wise by name. -/
def claimClassify (zipEntries : List ZipEntry) : List ZipEntry :=
  List.insertionSort byteRelZ
    ((zipEntries.filter (fun e => !e.isDirectory)).filter
      (fun e => IMAGE_EXTENSIONS.contains (strToLower (pathExtname e.name))))

/- ### Concrete test fixtures used by counterexamples and witnesses -/

/-- Archive holding a mixed-case pair of image entries: under byte-wise
comparison "B.jpg" sorts first, under localeCompare "a.jpg" sorts first. -/
def cexEntries : List ZipEntry :=
  [⟨"B.jpg", false, [1]⟩, ⟨"a.jpg", false, [2]⟩]

/-- An indexed record for the archive x.zip (its stored pageCount is stale
on purpose: the live archive decides bounds). -/
def cexRec : ComicRecord :=
  { id := "c1", fileName := "x.zip", filePath := pathJoin COMICS_DIR "x.zip", title := "x",
    cover := "/covers/c1.jpg", pageCount := 99, addedAt := "t", tags := [] }

/-- Index holding exactly cexRec. -/
def cexDb : List ComicRecord := [cexRec]

/-- Environment in which x.zip exists on disk and contains cexEntries. -/
def cexEnv : Env :=
  { archives := fun p => if p == pathJoin COMICS_DIR "x.zip" then some cexEntries else none
    fileExists := fun _ => true
    coverWriteOk := fun _ => true
    persistOk := true
    newId := fun n => "id" ++ toString n
    now := "t" }


/- ### Invariant definitions used by the scan claims -/

/-- Record well-formedness asserted by the spec: at least one page and a
non-empty cover reference. -/
def RecordOk (r : ComicRecord) : Prop :=
  1 ≤ r.pageCount ∧ r.cover ≠ ""

/-- Cover paths written so far, accumulated over an event trace. -/
def cwAcc (written : List String) : List Event → List String
  | [] => written
  | Event.coverWrite p _ :: rest => cwAcc (p :: written) rest
  | _ :: rest => cwAcc written rest

/-- Every record append in the trace is preceded by a write of that
record's cover file (the written argument accumulates cover paths seen so
far). -/
def cwb (written : List String) : List Event → Prop
  | [] => True
  | Event.coverWrite p _ :: rest => cwb (p :: written) rest
  | Event.appendRec r :: rest => coverPathFor r.id ∈ written ∧ cwb written rest
  | _ :: rest => cwb written rest

/-- Events that only ever mention .zip archives: every archive opened and
every record appended is for a file whose lowercased extension is .zip. -/
def zipOnlyEvent : Event → Prop
  | Event.openArchive p => strToLower (pathExtname p) = ".zip"
  | Event.appendRec r => strToLower (pathExtname r.fileName) = ".zip"
  | _ => True

/-- Fresh server state: empty index, empty durable snapshot, no uuids
drawn, no events. -/
def st0 : ScanState := { mem := [], disk := [], nextId := 0, events := [] }

/-- Environment in which good.zip holds one image and every other archive
path (bad.zip among them) is unreadable; all writes succeed. -/
def goodEnv : Env :=
  { archives := fun p => if p == pathJoin COMICS_DIR "good.zip" then some [ZipEntry.mk "a.jpg" false [7]] else none
    fileExists := fun _ => true
    coverWriteOk := fun _ => true
    persistOk := true
    newId := fun n => "id" ++ toString n
    now := "t" }

/-- The same environment with a failing durable-snapshot write. -/
def persistFailEnv : Env :=
  { goodEnv with persistOk := false }


/- ### Order lemmas for the localeCompare model -/

theorem natCmp_lt {a b : Nat} (h : a < b) : natCmp a b = .lt := by
  unfold natCmp; simp [h]

theorem natCmp_gt {a b : Nat} (h : b < a) : natCmp a b = .gt := by
  have h1 : ¬ a < b := by omega
  unfold natCmp; simp [h1, h]

theorem natCmp_self {a b : Nat} (h : a = b) : natCmp a b = .eq := by
  subst h
  unfold natCmp; simp

theorem natCmp_eq_iff {a b : Nat} : natCmp a b = .eq ↔ a = b := by
  constructor
  · intro h
    rcases Nat.lt_trichotomy a b with h1 | h1 | h1
    · rw [natCmp_lt h1] at h; exact absurd h (by simp)
    · exact h1
    · rw [natCmp_gt h1] at h; exact absurd h (by simp)
  · exact natCmp_self

theorem natCmp_lt_iff {a b : Nat} : natCmp a b = .lt ↔ a < b := by
  constructor
  · intro h
    rcases Nat.lt_trichotomy a b with h1 | h1 | h1
    · exact h1
    · rw [natCmp_self h1] at h; exact absurd h (by simp)
    · rw [natCmp_gt h1] at h; exact absurd h (by simp)
  · exact natCmp_lt

theorem natCmp_gt_iff {a b : Nat} : natCmp a b = .gt ↔ b < a := by
  constructor
  · intro h
    rcases Nat.lt_trichotomy a b with h1 | h1 | h1
    · rw [natCmp_lt h1] at h; exact absurd h (by simp)
    · rw [natCmp_self h1] at h; exact absurd h (by simp)
    · exact h1
  · exact natCmp_gt

theorem lexCmp_eq_iff : ∀ {x y : List Nat}, lexCmp x y = .eq ↔ x = y := by
  intro x
  induction x with
  | nil => intro y; cases y <;> simp [lexCmp]
  | cons a as ih =>
    intro y
    cases y with
    | nil => simp [lexCmp]
    | cons b bs =>
      simp only [lexCmp]
      rcases Nat.lt_trichotomy a b with h | h | h
      · rw [natCmp_lt h]
        simp
        intro h2
        omega
      · rw [natCmp_self h]
        subst h
        simp [ih]
      · rw [natCmp_gt h]
        simp
        intro h2
        omega

theorem lexCmp_refl (x : List Nat) : lexCmp x x = .eq :=
  lexCmp_eq_iff.mpr rfl

theorem lexCmp_swap : ∀ (x y : List Nat), (lexCmp x y).swap = lexCmp y x := by
  intro x
  induction x with
  | nil => intro y; cases y <;> simp [lexCmp, Ordering.swap]
  | cons a as ih =>
    intro y
    cases y with
    | nil => simp [lexCmp, Ordering.swap]
    | cons b bs =>
      simp only [lexCmp]
      rcases Nat.lt_trichotomy a b with h | h | h
      · rw [natCmp_lt h, natCmp_gt h]; simp [Ordering.swap]
      · rw [natCmp_self h, natCmp_self h.symm]; exact ih bs
      · rw [natCmp_gt h, natCmp_lt h]; simp [Ordering.swap]

theorem lexCmp_lt_trans :
    ∀ {x y z : List Nat}, lexCmp x y = .lt → lexCmp y z = .lt → lexCmp x z = .lt := by
  intro x
  induction x with
  | nil =>
    intro y z h1 h2
    cases y with
    | nil => exact h2
    | cons b bs =>
      cases z with
      | nil => simp [lexCmp] at h2
      | cons c cs => simp [lexCmp]
  | cons a as ih =>
    intro y z h1 h2
    cases y with
    | nil => simp [lexCmp] at h1
    | cons b bs =>
      cases z with
      | nil => simp [lexCmp] at h2
      | cons c cs =>
        simp only [lexCmp] at h1 h2 ⊢
        rcases Nat.lt_trichotomy a b with hab | hab | hab
        · rcases Nat.lt_trichotomy b c with hbc | hbc | hbc
          · rw [natCmp_lt (by omega : a < c)]
          · rw [natCmp_lt (by omega : a < c)]
          · rw [natCmp_gt hbc] at h2; exact absurd h2 (by simp)
        · subst hab
          rcases Nat.lt_trichotomy a c with hac | hac | hac
          · rw [natCmp_lt hac]
          · subst hac
            rw [natCmp_self rfl] at h1 h2 ⊢
            exact ih h1 h2
          · rw [natCmp_gt hac] at h2; exact absurd h2 (by simp)
        · rw [natCmp_gt hab] at h1; exact absurd h1 (by simp)

theorem lexCmp_le_trans :
    ∀ {x y z : List Nat}, lexCmp x y ≠ .gt → lexCmp y z ≠ .gt → lexCmp x z ≠ .gt := by
  intro x
  induction x with
  | nil =>
    intro y z _ _
    cases z <;> simp [lexCmp]
  | cons a as ih =>
    intro y z h1 h2
    cases y with
    | nil => simp [lexCmp] at h1
    | cons b bs =>
      cases z with
      | nil => simp [lexCmp] at h2
      | cons c cs =>
        simp only [lexCmp] at h1 h2 ⊢
        rcases Nat.lt_trichotomy a b with hab | hab | hab
        · rcases Nat.lt_trichotomy b c with hbc | hbc | hbc
          · rw [natCmp_lt (by omega : a < c)]; simp
          · rw [natCmp_lt (by omega : a < c)]; simp
          · rw [natCmp_gt hbc] at h2; exact absurd rfl h2
        · subst hab
          rcases Nat.lt_trichotomy a c with hac | hac | hac
          · rw [natCmp_lt hac]; simp
          · subst hac
            rw [natCmp_self rfl] at h1 h2 ⊢
            exact ih h1 h2
          · rw [natCmp_gt hac] at h2; exact absurd rfl h2
        · rw [natCmp_gt hab] at h1; exact absurd rfl h1

theorem locCmp_swap (a b : String) : (locCmp a b).swap = locCmp b a := by
  unfold locCmp
  rcases h : lexCmp (strPrim a) (strPrim b) with h1 | h1 | h1
  · have h2 : lexCmp (strPrim b) (strPrim a) = .gt := by
      rw [← lexCmp_swap, h]; rfl
    rw [h2]; rfl
  · have h2 : lexCmp (strPrim b) (strPrim a) = .eq := by
      rw [← lexCmp_swap, h]; rfl
    rw [h2]
    exact lexCmp_swap _ _
  · have h2 : lexCmp (strPrim b) (strPrim a) = .lt := by
      rw [← lexCmp_swap, h]; rfl
    rw [h2]; rfl

theorem locCmp_le_trans {a b c : String}
    (h1 : locCmp a b ≠ .gt) (h2 : locCmp b c ≠ .gt) : locCmp a c ≠ .gt := by
  unfold locCmp at h1 h2 ⊢
  rcases hab : lexCmp (strPrim a) (strPrim b) with h | h | h <;>
    rw [hab] at h1 <;>
    rcases hbc : lexCmp (strPrim b) (strPrim c) with h' | h' | h' <;>
    rw [hbc] at h2
  · rw [lexCmp_lt_trans hab hbc]; simp
  · have : strPrim b = strPrim c := lexCmp_eq_iff.mp hbc
    rw [← this, hab]; simp
  · exact absurd rfl h2
  · have : strPrim a = strPrim b := lexCmp_eq_iff.mp hab
    rw [this, hbc]; simp
  · have hb : strPrim a = strPrim b := lexCmp_eq_iff.mp hab
    have hc : strPrim b = strPrim c := lexCmp_eq_iff.mp hbc
    have h1' : lexCmp (strCase a) (strCase b) ≠ .gt := h1
    have h2' : lexCmp (strCase b) (strCase c) ≠ .gt := h2
    rw [hb, hc, lexCmp_refl]
    exact lexCmp_le_trans h1' h2'
  · exact absurd rfl h2
  · exact absurd rfl h1
  · exact absurd rfl h1
  · exact absurd rfl h1

instance : IsTrans ZipEntry locRelZ :=
  ⟨fun _ _ _ h1 h2 => locCmp_le_trans h1 h2⟩

instance : IsTotal ZipEntry locRelZ := by
  refine ⟨fun a b => ?_⟩
  by_cases h : locCmp a.name b.name = Ordering.gt
  · right
    unfold locRelZ
    rw [← locCmp_swap a.name b.name, h]
    simp [Ordering.swap]
  · left; exact h

/- ### Claim C1 -/

/-- Claim C1, counterexample: on the entry list [B.jpg, a.jpg] the
classifier the code uses (localeCompare ordering) yields [a.jpg, B.jpg],
while the byte-wise lexicographic ordering the claim states yields
[B.jpg, a.jpg]; the two disagree, so the classifier does not sort by
byte-wise/locale-insensitive comparison. -/
theorem classifyImages_not_bytewise :
    classifyImages cexEntries = [⟨"a.jpg", false, [2]⟩, ⟨"B.jpg", false, [1]⟩] ∧
    claimClassify cexEntries = [⟨"B.jpg", false, [1]⟩, ⟨"a.jpg", false, [2]⟩] ∧
    classifyImages cexEntries ≠ claimClassify cexEntries := by
  decide

/-- Claim C1 (amended): for every archive entry list, the classifier (used
identically in processNewComic and in the page route) produces exactly the
entries that are not directories and whose extension, lowercased, is in
{.jpg, .jpeg, .png, .gif, .webp} — and it sorts them by entry name using
JavaScript's localeCompare (locale-aware, case-insensitive at the primary
level) rather than byte-wise comparison; this deterministic ordering
defines page N. -/
theorem classifyImages_spec (zipEntries : List ZipEntry) :
    (classifyImages zipEntries).Perm (zipEntries.filter isImageEntry) ∧
    List.Sorted locRelZ (classifyImages zipEntries) := by
  constructor
  · unfold classifyImages
    have h := List.perm_insertionSort locRelZ
      ((zipEntries.filter (fun e => !e.isDirectory)).filter
        (fun e => IMAGE_EXTENSIONS.contains (strToLower (pathExtname e.name))))
    refine h.trans ?_
    rw [List.filter_filter]
    have hpred : ∀ e : ZipEntry,
        (IMAGE_EXTENSIONS.contains (strToLower (pathExtname e.name)) && !e.isDirectory) =
          isImageEntry e := by
      intro e
      unfold isImageEntry
      exact Bool.and_comm _ _
    rw [List.filter_congr (fun e _ => hpred e)]
  · exact List.sorted_insertionSort locRelZ _

/- ### Claim C2 -/

/-- Claim C2, counterexample: for the indexed comic c1 whose live archive
is [B.jpg ↦ bytes [1], a.jpg ↦ bytes [2]], getPage at page 0 returns the
bytes [2] of a.jpg (the localeCompare-first entry), while the 0th
byte-wise-lexicographically-sorted qualifying entry is B.jpg with bytes
[1]; the returned bytes are not those of the byte-wise 0th entry. -/
theorem getPage_not_bytewise :
    (getPage cexEnv cexDb "c1" "0").1 = PageResult.page "image/jpeg" [2] ∧
    (claimClassify cexEntries).get? 0 = some ⟨"B.jpg", false, [1]⟩ ∧
    ([2] : List Nat) ≠ [1] := by
  decide

/-- Claim C2 (amended): for every indexed comic id and every integer k with
0 ≤ k < the live archive's number of qualifying images, getPage returns
exactly the bytes of the k-th qualifying image entry in the classifier's
localeCompare ordering (the ordering of classifyImages), with Content-Type
derived from that entry's extension by the fixed mapping (.jpg/.jpeg →
image/jpeg, .png → image/png, .gif → image/gif, .webp → image/webp,
anything else → application/octet-stream). -/
theorem getPage_returns_kth_classified (env : Env) (comicsDB : List ComicRecord)
    (id pageNumber : String) (comic : ComicRecord) (zipEntries : List ZipEntry) (k : Int)
    (hfind : comicsDB.find? (fun c => c.id == id) = some comic)
    (hfile : env.fileExists comic.filePath = true)
    (harch : env.archives comic.filePath = some zipEntries)
    (hparse : jsParseInt pageNumber = some k)
    (hk0 : 0 ≤ k)
    (hklen : k.toNat < (classifyImages zipEntries).length) :
    getPage env comicsDB id pageNumber =
      (PageResult.page
        (mimeFor (strToLower (pathExtname ((classifyImages zipEntries).get ⟨k.toNat, hklen⟩).name)))
        ((classifyImages zipEntries).get ⟨k.toNat, hklen⟩).data,
       comicsDB) := by
  unfold getPage
  simp only [hparse, hfind, hfile, if_true, harch]
  have hlt : jsNumLt (some k) 0 = false := by
    unfold jsNumLt
    simp
    omega
  have hge : jsNumGe (some k) (classifyImages zipEntries).length = false := by
    unfold jsNumGe
    simp
    omega
  simp only [hlt, hge, Bool.or_self, Bool.false_eq_true, if_false, jsIndexGet]
  rw [dif_pos ⟨hk0, hklen⟩]

/-- Claim C2 (amended), witness: in the concrete fixture, page "0" of comic
c1 yields the bytes of a.jpg with MIME image/jpeg. -/
theorem getPage_returns_kth_classified_witness :
    getPage cexEnv cexDb "c1" "0" = (PageResult.page "image/jpeg" [2], cexDb) := by
  have h := getPage_returns_kth_classified cexEnv cexDb "c1" "0" cexRec cexEntries 0
    (by decide) (by decide) (by decide) (by decide) (by decide) (by decide)
  rw [h]
  rfl

/- ### Claim C7 -/

/-- Claim C7, counterexample: the page-number input "abc" is not a valid
index into the live image list, yet getPage does not return the 400
InvalidPageIndex response: parseInt gives NaN, both bounds comparisons are
false on NaN, images[NaN] is undefined, and the property access throws into
the catch block, producing a 500. -/
theorem getPage_nan_not_400 :
    (getPage cexEnv cexDb "c1" "abc").1 = PageResult.serverError ∧
    statusOf (getPage cexEnv cexDb "c1" "abc").1 = 500 ∧
    statusOf (getPage cexEnv cexDb "c1" "abc").1 ≠ 400 := by
  decide

/-- Claim C7 (amended): for every indexed comic whose archive is readable,
a page-number input that parseInt turns into an out-of-range integer
(k < 0 or k ≥ the live image count, regardless of the stale stored
pageCount, which is never consulted) yields the InvalidPageIndex response
with HTTP 400; an input that parseInt turns into NaN bypasses the range
check and yields a 500 server error instead. -/
theorem getPage_range_check (env : Env) (comicsDB : List ComicRecord)
    (id pageNumber : String) (comic : ComicRecord) (zipEntries : List ZipEntry)
    (hfind : comicsDB.find? (fun c => c.id == id) = some comic)
    (hfile : env.fileExists comic.filePath = true)
    (harch : env.archives comic.filePath = some zipEntries) :
    (∀ k : Int, jsParseInt pageNumber = some k →
      (k < 0 ∨ ((classifyImages zipEntries).length : Int) ≤ k) →
      (getPage env comicsDB id pageNumber).1 = PageResult.invalidPage ∧
      statusOf (getPage env comicsDB id pageNumber).1 = 400) ∧
    (jsParseInt pageNumber = none →
      (getPage env comicsDB id pageNumber).1 = PageResult.serverError ∧
      statusOf (getPage env comicsDB id pageNumber).1 = 500) := by
  constructor
  · intro k hk hrange
    have hcond :
        (jsNumLt (some k) 0 || jsNumGe (some k) (classifyImages zipEntries).length) = true := by
      unfold jsNumLt jsNumGe
      simp
      omega
    have hres : getPage env comicsDB id pageNumber = (PageResult.invalidPage, comicsDB) := by
      unfold getPage
      simp only [hk, hfind, harch]
      simp [hfile, hcond]
    rw [hres]
    exact ⟨rfl, rfl⟩
  · intro hnan
    have hres : getPage env comicsDB id pageNumber = (PageResult.serverError, comicsDB) := by
      unfold getPage
      simp only [hnan, hfind, harch]
      simp [hfile, jsNumLt, jsNumGe, jsIndexGet]
    rw [hres]
    exact ⟨rfl, rfl⟩

/-- Claim C7 (amended), witness: page "5" of the two-image fixture comic is
rejected with 400, and page "abc" produces the 500 fallthrough. -/
theorem getPage_range_check_witness :
    (getPage cexEnv cexDb "c1" "5").1 = PageResult.invalidPage ∧
    (getPage cexEnv cexDb "c1" "abc").1 = PageResult.serverError := by
  constructor
  · exact ((getPage_range_check cexEnv cexDb "c1" "5" cexRec cexEntries
      (by decide) (by decide) (by decide)).1 5 (by decide) (by decide)).1
  · exact ((getPage_range_check cexEnv cexDb "c1" "abc" cexRec cexEntries
      (by decide) (by decide) (by decide)).2 (by decide)).1

/- ### Claim C9 -/

/-- Claim C9: getPage answers comicNotFound (404) when no record matches
the id, answers fileNotFound (404) when the matching record's filePath no
longer exists on disk, and in every case returns the comicsDB collection
unchanged — the stale record is left untouched, there is no deletion. -/
theorem getPage_notFound_spec (env : Env) (comicsDB : List ComicRecord)
    (id pageNumber : String) :
    (comicsDB.find? (fun c => c.id == id) = none →
      getPage env comicsDB id pageNumber = (PageResult.comicNotFound, comicsDB) ∧
      statusOf PageResult.comicNotFound = 404) ∧
    (∀ comic, comicsDB.find? (fun c => c.id == id) = some comic →
      env.fileExists comic.filePath = false →
      getPage env comicsDB id pageNumber = (PageResult.fileNotFound, comicsDB) ∧
      statusOf PageResult.fileNotFound = 404) ∧
    (getPage env comicsDB id pageNumber).2 = comicsDB := by
  refine ⟨?_, ?_, ?_⟩
  · intro h
    unfold getPage
    rw [h]
    exact ⟨rfl, rfl⟩
  · intro comic hc hex
    refine ⟨?_, rfl⟩
    unfold getPage
    rw [hc]
    simp [hex]
  · unfold getPage
    rcases hf : comicsDB.find? (fun c => c.id == id) with _ | comic
    · rw [hf]
    · rw [hf]
      by_cases hex : env.fileExists comic.filePath
      · simp only [hex, if_true]
        rcases ha : env.archives comic.filePath with _ | zipEntries
        · rfl
        · simp only []
          split
          · rfl
          · split <;> rfl
      · simp [hex]

/-- Claim C9, witness: an unknown id gets comicNotFound with the index
unchanged, and comic c1 with its archive file missing on disk gets
fileNotFound with the index unchanged. -/
theorem getPage_notFound_spec_witness :
    getPage cexEnv cexDb "nope" "0" = (PageResult.comicNotFound, cexDb) ∧
    getPage { cexEnv with fileExists := fun _ => false } cexDb "c1" "0" =
      (PageResult.fileNotFound, cexDb) := by
  constructor
  · exact ((getPage_notFound_spec cexEnv cexDb "nope" "0").1 (by decide)).1
  · exact ((getPage_notFound_spec { cexEnv with fileExists := fun _ => false } cexDb
      "c1" "0").2.1 cexRec (by decide) (by decide)).1

/- ### Claim C6 -/

/-- Claim C6, counterexample: when the stored comics.json exists but its
content fails to parse, startup is not fatal: the SyntaxError is swallowed
by the catch block (whose only special case is err.code ENOENT), comicsDB
stays empty, nothing is written, and the process continues to the scan. -/
theorem startupLoad_swallows_parse_error :
    startupLoad (fun _ => none) (ReadResult.readOk "not json") =
      { db := [], wrote := none, fatal := none } := by
  decide

/-- Claim C6 (amended): at startup, when the durable file is absent the
index is initialized to the empty collection and the empty state '[]' is
immediately persisted; but if the stored file exists and its content fails
to parse, the error is silently swallowed — the in-memory index stays
empty, nothing is persisted, and startup proceeds with no fatal error; a
successful parse loads the stored records. -/
theorem startupLoad_spec (parse : String → Option (List ComicRecord)) :
    (startupLoad parse ReadResult.enoent =
      { db := [], wrote := some "[]", fatal := none }) ∧
    (∀ content, parse content = none →
      startupLoad parse (ReadResult.readOk content) =
        { db := [], wrote := none, fatal := none }) ∧
    (∀ content db, parse content = some db →
      startupLoad parse (ReadResult.readOk content) =
        { db := db, wrote := none, fatal := none }) := by
  refine ⟨rfl, ?_, ?_⟩
  · intro content h
    simp only [startupLoad, h]
  · intro content db h
    simp only [startupLoad, h]

/-- Claim C6 (amended), witness: with a parser that rejects everything, a
missing file initializes and persists '[]', and unparseable content leaves
the empty index with nothing written and no fatal error. -/
theorem startupLoad_spec_witness :
    startupLoad (fun _ => none) ReadResult.enoent =
      { db := [], wrote := some "[]", fatal := none } ∧
    startupLoad (fun _ => none) (ReadResult.readOk "x") =
      { db := [], wrote := none, fatal := none } :=
  ⟨(startupLoad_spec (fun _ => none)).1,
   (startupLoad_spec (fun _ => none)).2.1 "x" rfl⟩

/- ### Path lemmas -/

theorem afterLastSlash_append (a b : String) :
    afterLastSlash (a ++ "/" ++ b).data = afterLastSlash b.data := by
  unfold afterLastSlash
  have hdata : (a ++ "/" ++ b).data = (a.data ++ ['/']) ++ b.data := by
    rw [String.data_append, String.data_append]
  rw [hdata, List.foldl_append]
  have hmid : ∀ acc : List Char,
      (a.data ++ ['/']).foldl (fun acc c => if c = '/' then [] else acc ++ [c]) acc = [] := by
    intro acc
    rw [List.foldl_append]
    simp
  rw [hmid]

theorem pathExtname_join (a b : String) : pathExtname (pathJoin a b) = pathExtname b := by
  unfold pathExtname pathJoin
  rw [afterLastSlash_append]

theorem covers_ne_empty (s : String) : "/covers/" ++ s ≠ "" := by
  intro h
  have h2 : ("/covers/" ++ s).length = ("" : String).length := by rw [h]
  rw [String.length_append] at h2
  have h3 : ("/covers/" : String).length = 8 := rfl
  have h4 : ("" : String).length = 0 := rfl
  omega

/- ### Branch lemmas for processNewComic -/

theorem processNewComic_unreadable (env : Env) (st : ScanState) (f : String)
    (h : env.archives (pathJoin COMICS_DIR f) = none) :
    processNewComic env st f =
      ({ st with events := st.events ++ [Event.openArchive (pathJoin COMICS_DIR f)] },
       some JsError.archiveUnreadable) := by
  simp [processNewComic, h]

theorem processNewComic_empty (env : Env) (st : ScanState) (f : String)
    (es : List ZipEntry)
    (h : env.archives (pathJoin COMICS_DIR f) = some es)
    (h2 : classifyImages es = []) :
    processNewComic env st f =
      ({ st with events := st.events ++ [Event.openArchive (pathJoin COMICS_DIR f)] },
       none) := by
  simp [processNewComic, h, h2]

theorem processNewComic_coverFail (env : Env) (st : ScanState) (f : String)
    (es : List ZipEntry) (c : ZipEntry) (rest : List ZipEntry)
    (h : env.archives (pathJoin COMICS_DIR f) = some es)
    (h2 : classifyImages es = c :: rest)
    (h3 : env.coverWriteOk (coverPathFor (env.newId st.nextId)) = false) :
    processNewComic env st f =
      ({ st with
           nextId := st.nextId + 1
           events := st.events ++ [Event.openArchive (pathJoin COMICS_DIR f)] },
       some JsError.coverWriteFailure) := by
  simp [processNewComic, h, h2, h3]

theorem processNewComic_persistFail (env : Env) (st : ScanState) (f : String)
    (es : List ZipEntry) (c : ZipEntry) (rest : List ZipEntry)
    (h : env.archives (pathJoin COMICS_DIR f) = some es)
    (h2 : classifyImages es = c :: rest)
    (h3 : env.coverWriteOk (coverPathFor (env.newId st.nextId)) = true)
    (h4 : env.persistOk = false) :
    processNewComic env st f =
      ({ mem := st.mem ++ [builtRecord env st f (c :: rest).length],
         disk := st.disk,
         nextId := st.nextId + 1,
         events := st.events ++ [Event.openArchive (pathJoin COMICS_DIR f),
           Event.coverWrite (coverPathFor (env.newId st.nextId)) c.data,
           Event.appendRec (builtRecord env st f (c :: rest).length)] },
       some JsError.persistFailure) := by
  simp [processNewComic, h, h2, h3, h4]

theorem processNewComic_success (env : Env) (st : ScanState) (f : String)
    (es : List ZipEntry) (c : ZipEntry) (rest : List ZipEntry)
    (h : env.archives (pathJoin COMICS_DIR f) = some es)
    (h2 : classifyImages es = c :: rest)
    (h3 : env.coverWriteOk (coverPathFor (env.newId st.nextId)) = true)
    (h4 : env.persistOk = true) :
    processNewComic env st f =
      ({ mem := st.mem ++ [builtRecord env st f (c :: rest).length],
         disk := st.mem ++ [builtRecord env st f (c :: rest).length],
         nextId := st.nextId + 1,
         events := st.events ++ [Event.openArchive (pathJoin COMICS_DIR f),
           Event.coverWrite (coverPathFor (env.newId st.nextId)) c.data,
           Event.appendRec (builtRecord env st f (c :: rest).length),
           Event.persistSnapshot (st.mem ++ [builtRecord env st f (c :: rest).length])] },
       none) := by
  simp [processNewComic, h, h2, h3, h4]

theorem processNewComic_mem_shape (env : Env) (st : ScanState) (f : String) :
    (processNewComic env st f).1.mem = st.mem ∨
    ∃ n, 1 ≤ n ∧ (processNewComic env st f).1.mem = st.mem ++ [builtRecord env st f n] := by
  rcases h : env.archives (pathJoin COMICS_DIR f) with _ | es
  · rw [processNewComic_unreadable env st f h]
    left; rfl
  · rcases h2 : classifyImages es with _ | ⟨c, rest⟩
    · rw [processNewComic_empty env st f es h h2]
      left; rfl
    · cases h3 : env.coverWriteOk (coverPathFor (env.newId st.nextId)) with
      | false =>
        rw [processNewComic_coverFail env st f es c rest h h2 h3]
        left; rfl
      | true =>
        cases h4 : env.persistOk with
        | false =>
          rw [processNewComic_persistFail env st f es c rest h h2 h3 h4]
          right; exact ⟨(c :: rest).length, by simp, rfl⟩
        | true =>
          rw [processNewComic_success env st f es c rest h h2 h3 h4]
          right; exact ⟨(c :: rest).length, by simp, rfl⟩

theorem processNewComic_events_shape (env : Env) (st : ScanState) (f : String) :
    (processNewComic env st f).1.events =
        st.events ++ [Event.openArchive (pathJoin COMICS_DIR f)] ∨
    ∃ d R db, R.fileName = f ∧
      ((processNewComic env st f).1.events =
          st.events ++ [Event.openArchive (pathJoin COMICS_DIR f),
            Event.coverWrite (coverPathFor R.id) d, Event.appendRec R] ∨
        (processNewComic env st f).1.events =
          st.events ++ [Event.openArchive (pathJoin COMICS_DIR f),
            Event.coverWrite (coverPathFor R.id) d, Event.appendRec R,
            Event.persistSnapshot db]) := by
  rcases h : env.archives (pathJoin COMICS_DIR f) with _ | es
  · rw [processNewComic_unreadable env st f h]
    left; rfl
  · rcases h2 : classifyImages es with _ | ⟨c, rest⟩
    · rw [processNewComic_empty env st f es h h2]
      left; rfl
    · cases h3 : env.coverWriteOk (coverPathFor (env.newId st.nextId)) with
      | false =>
        rw [processNewComic_coverFail env st f es c rest h h2 h3]
        left; rfl
      | true =>
        cases h4 : env.persistOk with
        | false =>
          rw [processNewComic_persistFail env st f es c rest h h2 h3 h4]
          right
          exact ⟨c.data, builtRecord env st f (c :: rest).length, [], rfl, Or.inl rfl⟩
        | true =>
          rw [processNewComic_success env st f es c rest h h2 h3 h4]
          right
          exact ⟨c.data, builtRecord env st f (c :: rest).length,
            st.mem ++ [builtRecord env st f (c :: rest).length], rfl, Or.inr rfl⟩

theorem processNewComic_ok_cases (env : Env) (st : ScanState) (f : String)
    (st1 : ScanState) (h : processNewComic env st f = (st1, none)) :
    (∃ es, env.archives (pathJoin COMICS_DIR f) = some es ∧ classifyImages es = [] ∧
      st1.mem = st.mem ∧ st1.disk = st.disk ∧ st1.nextId = st.nextId ∧
      st1.events = st.events ++ [Event.openArchive (pathJoin COMICS_DIR f)]) ∨
    (∃ es, env.archives (pathJoin COMICS_DIR f) = some es ∧ classifyImages es ≠ [] ∧
      st1.mem = st.mem ++ [builtRecord env st f (classifyImages es).length]) := by
  rcases harch : env.archives (pathJoin COMICS_DIR f) with _ | es
  · rw [processNewComic_unreadable env st f harch] at h
    simp at h
  · rcases h2 : classifyImages es with _ | ⟨c, rest⟩
    · rw [processNewComic_empty env st f es harch h2] at h
      simp only [Prod.mk.injEq, and_true] at h
      subst h
      exact Or.inl ⟨es, rfl, h2, rfl, rfl, rfl, rfl⟩
    · cases h3 : env.coverWriteOk (coverPathFor (env.newId st.nextId)) with
      | false =>
        rw [processNewComic_coverFail env st f es c rest harch h2 h3] at h
        simp at h
      | true =>
        cases h4 : env.persistOk with
        | false =>
          rw [processNewComic_persistFail env st f es c rest harch h2 h3 h4] at h
          simp at h
        | true =>
          rw [processNewComic_success env st f es c rest harch h2 h3 h4] at h
          simp only [Prod.mk.injEq, and_true] at h
          subst h
          refine Or.inr ⟨es, rfl, by rw [h2]; simp, ?_⟩
          rw [h2]

/- ### Loop lemmas for scanComicsDirectory -/

theorem scanLoop_mem_shape (env : Env) :
    ∀ (fs : List String) (st : ScanState),
    ∃ t, (scanLoop env st fs).1.mem = st.mem ++ t ∧
      ∀ r ∈ t, r.fileName ∈ fs ∧ 1 ≤ r.pageCount ∧ r.cover ≠ "" := by
  intro fs
  induction fs with
  | nil =>
    intro st
    exact ⟨[], by simp [scanLoop], by simp⟩
  | cons f rest ih =>
    intro st
    rcases hfind : st.mem.find? (fun c => c.fileName == f) with _ | r0
    case none =>
      rcases hproc : processNewComic env st f with ⟨st1, oe⟩
      have hmem := processNewComic_mem_shape env st f
      rw [hproc] at hmem
      cases oe with
      | none =>
        obtain ⟨t2, ht2, ht2p⟩ := ih st1
        have hloop : scanLoop env st (f :: rest) = scanLoop env st1 rest := by
          simp [scanLoop, hfind, hproc]
        rcases hmem with h1 | ⟨n, hn, h1⟩
        · refine ⟨t2, by rw [hloop, ht2, h1], ?_⟩
          intro r hr
          exact ⟨List.mem_cons_of_mem _ (ht2p r hr).1, (ht2p r hr).2⟩
        · refine ⟨builtRecord env st f n :: t2, ?_, ?_⟩
          · rw [hloop, ht2, h1]
            simp
          · intro r hr
            rcases List.mem_cons.mp hr with hr1 | hr2
            · subst hr1
              exact ⟨List.mem_cons_self _ _, hn, covers_ne_empty _⟩
            · exact ⟨List.mem_cons_of_mem _ (ht2p r hr2).1, (ht2p r hr2).2⟩
      | some e =>
        have hloop : scanLoop env st (f :: rest) = (st1, some e) := by
          simp [scanLoop, hfind, hproc]
        rcases hmem with h1 | ⟨n, hn, h1⟩
        · refine ⟨[], by rw [hloop]; simpa using h1, by simp⟩
        · refine ⟨[builtRecord env st f n], by rw [hloop]; simpa using h1, ?_⟩
          intro r hr
          rw [List.mem_singleton] at hr
          subst hr
          exact ⟨List.mem_cons_self _ _, hn, covers_ne_empty _⟩
    case some =>
      have hloop : scanLoop env st (f :: rest) = scanLoop env st rest := by
        simp [scanLoop, hfind]
      obtain ⟨t2, ht2, ht2p⟩ := ih st
      refine ⟨t2, by rw [hloop]; exact ht2, ?_⟩
      intro r hr
      exact ⟨List.mem_cons_of_mem _ (ht2p r hr).1, (ht2p r hr).2⟩

theorem scanLoop_mem_mono (env : Env) (fs : List String) (st : ScanState)
    (r : ComicRecord) (hr : r ∈ st.mem) : r ∈ (scanLoop env st fs).1.mem := by
  obtain ⟨t, ht, -⟩ := scanLoop_mem_shape env fs st
  rw [ht]
  exact List.mem_append_left _ hr

theorem scanLoop_count_stable (env : Env) (f : String) :
    ∀ (fs : List String) (st : ScanState),
    1 ≤ st.mem.countP (fun r => r.fileName == f) →
    (scanLoop env st fs).1.mem.countP (fun r => r.fileName == f) =
      st.mem.countP (fun r => r.fileName == f) := by
  intro fs
  induction fs with
  | nil => intro st _; simp [scanLoop]
  | cons g rest ih =>
    intro st h
    rcases hfind : st.mem.find? (fun c => c.fileName == g) with _ | r0
    case some =>
      have hloop : scanLoop env st (g :: rest) = scanLoop env st rest := by
        simp [scanLoop, hfind]
      rw [hloop]
      exact ih st h
    case none =>
      have hg0 : st.mem.countP (fun r => r.fileName == g) = 0 := by
        rw [List.countP_eq_zero]
        exact fun r hr => List.find?_eq_none.mp hfind r hr
      have hgf : g ≠ f := by
        intro heq
        subst heq
        omega
      rcases hproc : processNewComic env st g with ⟨st1, oe⟩
      have hmem := processNewComic_mem_shape env st g
      rw [hproc] at hmem
      have hcount1 : st1.mem.countP (fun r => r.fileName == f) =
          st.mem.countP (fun r => r.fileName == f) := by
        rcases hmem with h1 | ⟨n, hn, h1⟩
        · rw [h1]
        · rw [h1, List.countP_append]
          have hne : ((builtRecord env st g n).fileName == f) = false := by
            simp [builtRecord]
            exact hgf
          simp [hne]
      cases oe with
      | none =>
        have hloop : scanLoop env st (g :: rest) = scanLoop env st1 rest := by
          simp [scanLoop, hfind, hproc]
        rw [hloop, ih st1 (by rw [hcount1]; exact h)]
        exact hcount1
      | some e =>
        have hloop : scanLoop env st (g :: rest) = (st1, some e) := by
          simp [scanLoop, hfind, hproc]
        rw [hloop]
        exact hcount1

theorem scanLoop_count_one (env : Env) (f : String) (es : List ZipEntry)
    (harch : env.archives (pathJoin COMICS_DIR f) = some es)
    (himg : classifyImages es ≠ []) :
    ∀ (fs : List String) (st : ScanState),
    f ∈ fs →
    st.mem.countP (fun r => r.fileName == f) = 0 →
    (scanLoop env st fs).2 = none →
    (scanLoop env st fs).1.mem.countP (fun r => r.fileName == f) = 1 := by
  intro fs
  induction fs with
  | nil =>
    intro st hf
    simp at hf
  | cons g rest ih =>
    intro st hf h0 hsucc
    by_cases hgf : g = f
    · subst hgf
      have hfind : st.mem.find? (fun c => c.fileName == g) = none := by
        rw [List.find?_eq_none]
        exact fun r hr => List.countP_eq_zero.mp h0 r hr
      rcases hproc : processNewComic env st g with ⟨st1, oe⟩
      cases oe with
      | some e =>
        have hloop : scanLoop env st (g :: rest) = (st1, some e) := by
          simp [scanLoop, hfind, hproc]
        rw [hloop] at hsucc
        simp at hsucc
      | none =>
        have hloop : scanLoop env st (g :: rest) = scanLoop env st1 rest := by
          simp [scanLoop, hfind, hproc]
        rcases processNewComic_ok_cases env st g st1 hproc with
          ⟨es2, harch2, hcl2, -, -, -, -⟩ | ⟨es2, harch2, hne2, hmem1⟩
        · rw [harch] at harch2
          injection harch2 with hes
          subst hes
          exact absurd hcl2 himg
        · have hc1 : st1.mem.countP (fun r => r.fileName == g) = 1 := by
            rw [hmem1, List.countP_append, h0]
            simp [builtRecord]
          rw [hloop]
          rw [scanLoop_count_stable env g rest st1 (by omega)]
          exact hc1
    · have hfrest : f ∈ rest := by
        rcases List.mem_cons.mp hf with h | h
        · exact absurd h.symm hgf
        · exact h
      rcases hfind : st.mem.find? (fun c => c.fileName == g) with _ | r0
      case neg.none =>
        rcases hproc : processNewComic env st g with ⟨st1, oe⟩
        cases oe with
        | some e =>
          have hloop : scanLoop env st (g :: rest) = (st1, some e) := by
            simp [scanLoop, hfind, hproc]
          rw [hloop] at hsucc
          simp at hsucc
        | none =>
          have hloop : scanLoop env st (g :: rest) = scanLoop env st1 rest := by
            simp [scanLoop, hfind, hproc]
          have hmem := processNewComic_mem_shape env st g
          rw [hproc] at hmem
          have h0t : st1.mem.countP (fun r => r.fileName == f) = 0 := by
            rcases hmem with h1 | ⟨n, hn, h1⟩
            · rw [h1]
              exact h0
            · rw [h1, List.countP_append, h0]
              have hne : ((builtRecord env st g n).fileName == f) = false := by
                simp [builtRecord]
                exact hgf
              simp [hne]
          rw [hloop] at hsucc ⊢
          exact ih st1 hfrest h0t hsucc
      case neg.some =>
        have hloop : scanLoop env st (g :: rest) = scanLoop env st rest := by
          simp [scanLoop, hfind]
        rw [hloop] at hsucc ⊢
        exact ih st hfrest h0 hsucc

theorem scanLoop_count_le_one (env : Env) (g : String) :
    ∀ (fs : List String) (st : ScanState),
    st.mem.countP (fun r => r.fileName == g) ≤ 1 →
    (scanLoop env st fs).1.mem.countP (fun r => r.fileName == g) ≤ 1 := by
  intro fs
  induction fs with
  | nil =>
    intro st h
    simpa [scanLoop] using h
  | cons f rest ih =>
    intro st h
    rcases hfind : st.mem.find? (fun c => c.fileName == f) with _ | r0
    case some =>
      have hloop : scanLoop env st (f :: rest) = scanLoop env st rest := by
        simp [scanLoop, hfind]
      rw [hloop]
      exact ih st h
    case none =>
      have hf0 : st.mem.countP (fun r => r.fileName == f) = 0 := by
        rw [List.countP_eq_zero]
        exact fun r hr => List.find?_eq_none.mp hfind r hr
      rcases hproc : processNewComic env st f with ⟨st1, oe⟩
      have hmem := processNewComic_mem_shape env st f
      rw [hproc] at hmem
      have h1 : st1.mem.countP (fun r => r.fileName == g) ≤ 1 := by
        rcases hmem with hm | ⟨n, hn, hm⟩
        · rw [hm]
          exact h
        · rw [hm, List.countP_append]
          by_cases hfg : f = g
          · subst hfg
            rw [hf0]
            simp [builtRecord]
          · have hne : ((builtRecord env st f n).fileName == g) = false := by
              simp [builtRecord]
              exact hfg
            simp [hne]
            exact h
      cases oe with
      | none =>
        have hloop : scanLoop env st (f :: rest) = scanLoop env st1 rest := by
          simp [scanLoop, hfind, hproc]
        rw [hloop]
        exact ih st1 h1
      | some e =>
        have hloop : scanLoop env st (f :: rest) = (st1, some e) := by
          simp [scanLoop, hfind, hproc]
        rw [hloop]
        exact h1

theorem scanLoop_settled (env : Env) :
    ∀ (fs : List String) (st st1 : ScanState),
    scanLoop env st fs = (st1, none) →
    ∀ g ∈ fs, (∃ r ∈ st1.mem, r.fileName = g) ∨
      (∃ es, env.archives (pathJoin COMICS_DIR g) = some es ∧ classifyImages es = []) := by
  intro fs
  induction fs with
  | nil =>
    intro st st1 h g hg
    simp at hg
  | cons f rest ih =>
    intro st st1 h g hg
    rcases hfind : st.mem.find? (fun c => c.fileName == f) with _ | r0
    case none =>
      rcases hproc : processNewComic env st f with ⟨st2, oe⟩
      cases oe with
      | some e =>
        have hloop : scanLoop env st (f :: rest) = (st2, some e) := by
          simp [scanLoop, hfind, hproc]
        rw [hloop] at h
        simp at h
      | none =>
        have hloop : scanLoop env st (f :: rest) = scanLoop env st2 rest := by
          simp [scanLoop, hfind, hproc]
        rw [hloop] at h
        rcases List.mem_cons.mp hg with hgf | hg2
        · subst hgf
          rcases processNewComic_ok_cases env st g st2 hproc with
            ⟨es, harch, hcl, -, -, -, -⟩ | ⟨es, harch, hne, hmem⟩
          · right
            exact ⟨es, harch, hcl⟩
          · left
            have hr : builtRecord env st g (classifyImages es).length ∈ st2.mem := by
              rw [hmem]
              simp
            have hmono := scanLoop_mem_mono env rest st2 _ hr
            rw [h] at hmono
            exact ⟨_, hmono, rfl⟩
        · exact ih st2 st1 h g hg2
    case some =>
      have hloop : scanLoop env st (f :: rest) = scanLoop env st rest := by
        simp [scanLoop, hfind]
      rw [hloop] at h
      rcases List.mem_cons.mp hg with hgf | hg2
      · subst hgf
        left
        have hr0mem : r0 ∈ st.mem := List.mem_of_find?_eq_some hfind
        have hr0p := List.find?_some hfind
        have hmono := scanLoop_mem_mono env rest st r0 hr0mem
        rw [h] at hmono
        exact ⟨r0, hmono, by simpa using hr0p⟩
      · exact ih st st1 h g hg2

theorem scanLoop_noop (env : Env) :
    ∀ (fs : List String) (st : ScanState),
    (∀ g ∈ fs, (∃ r ∈ st.mem, r.fileName = g) ∨
      (∃ es, env.archives (pathJoin COMICS_DIR g) = some es ∧ classifyImages es = [])) →
    (scanLoop env st fs).1.mem = st.mem ∧ (scanLoop env st fs).1.disk = st.disk ∧
    (scanLoop env st fs).2 = none := by
  intro fs
  induction fs with
  | nil =>
    intro st _
    simp [scanLoop]
  | cons f rest ih =>
    intro st hyp
    rcases hfind : st.mem.find? (fun c => c.fileName == f) with _ | r0
    case none =>
      rcases hyp f (List.mem_cons_self _ _) with ⟨r, hr, hrf⟩ | ⟨es, harch, hcl⟩
      · exfalso
        have hnone := List.find?_eq_none.mp hfind r hr
        simp [hrf] at hnone
      · have hproc := processNewComic_empty env st f es harch hcl
        have hloop : scanLoop env st (f :: rest) =
            scanLoop env
              { st with events := st.events ++ [Event.openArchive (pathJoin COMICS_DIR f)] }
              rest := by
          simp [scanLoop, hfind, hproc]
        rw [hloop]
        exact ih _ (fun g hg => hyp g (List.mem_cons_of_mem _ hg))
    case some =>
      have hloop : scanLoop env st (f :: rest) = scanLoop env st rest := by
        simp [scanLoop, hfind]
      rw [hloop]
      exact ih st (fun g hg => hyp g (List.mem_cons_of_mem _ hg))

theorem scanLoop_append (env : Env) :
    ∀ (fs1 : List String) (st st1 : ScanState),
    scanLoop env st fs1 = (st1, none) →
    ∀ fs2, scanLoop env st (fs1 ++ fs2) = scanLoop env st1 fs2 := by
  intro fs1
  induction fs1 with
  | nil =>
    intro st st1 h fs2
    simp only [scanLoop, Prod.mk.injEq, and_true] at h
    subst h
    rfl
  | cons f rest ih =>
    intro st st1 h fs2
    rcases hfind : st.mem.find? (fun c => c.fileName == f) with _ | r0
    case none =>
      rcases hproc : processNewComic env st f with ⟨st2, oe⟩
      cases oe with
      | some e =>
        have hloop : scanLoop env st (f :: rest) = (st2, some e) := by
          simp [scanLoop, hfind, hproc]
        rw [hloop] at h
        simp at h
      | none =>
        have hloop : scanLoop env st (f :: rest) = scanLoop env st2 rest := by
          simp [scanLoop, hfind, hproc]
        rw [hloop] at h
        have hstep : scanLoop env st ((f :: rest) ++ fs2) = scanLoop env st2 (rest ++ fs2) := by
          simp [scanLoop, hfind, hproc]
        rw [hstep]
        exact ih st2 st1 h fs2
    case some =>
      have hloop : scanLoop env st (f :: rest) = scanLoop env st rest := by
        simp [scanLoop, hfind]
      rw [hloop] at h
      have hstep : scanLoop env st ((f :: rest) ++ fs2) = scanLoop env st (rest ++ fs2) := by
        simp [scanLoop, hfind]
      rw [hstep]
      exact ih st st1 h fs2

/- ### Trace lemmas: cover-before-append and zip-only events -/

theorem cwb_append :
    ∀ (l1 l2 : List Event) (w : List String),
    cwb w (l1 ++ l2) ↔ cwb w l1 ∧ cwb (cwAcc w l1) l2 := by
  intro l1
  induction l1 with
  | nil =>
    intro l2 w
    simp [cwb, cwAcc]
  | cons e rest ih =>
    intro l2 w
    cases e with
    | openArchive p => simp [cwb, cwAcc, ih]
    | coverWrite p d => simp [cwb, cwAcc, ih]
    | appendRec r => simp [cwb, cwAcc, ih, and_assoc]
    | persistSnapshot db => simp [cwb, cwAcc, ih]

theorem processNewComic_cwb (env : Env) (st : ScanState) (f : String) (w : List String)
    (h : cwb w st.events) : cwb w (processNewComic env st f).1.events := by
  rcases processNewComic_events_shape env st f with h1 | ⟨d, R, db, hRf, h1 | h1⟩ <;>
    rw [h1] <;> rw [cwb_append] <;>
    exact ⟨h, by simp [cwb, cwAcc]⟩

theorem processNewComic_zipEvents (env : Env) (st : ScanState) (f : String)
    (hf : strToLower (pathExtname f) = ".zip")
    (hev : ∀ ev ∈ st.events, zipOnlyEvent ev) :
    ∀ ev ∈ (processNewComic env st f).1.events, zipOnlyEvent ev := by
  have hopen : zipOnlyEvent (Event.openArchive (pathJoin COMICS_DIR f)) := by
    show strToLower (pathExtname (pathJoin COMICS_DIR f)) = ".zip"
    rw [pathExtname_join]
    exact hf
  rcases processNewComic_events_shape env st f with h1 | ⟨d, R, db, hRf, h1 | h1⟩ <;>
    rw [h1] <;> intro ev hev2 <;> rcases List.mem_append.mp hev2 with h2 | h2 <;>
    first
      | exact hev ev h2
      | · simp at h2
          rcases h2 with h3 | h3 | h3 | h3 <;> try subst h3
          all_goals first
            | exact hopen
            | exact trivial
            | (show strToLower (pathExtname R.fileName) = ".zip"; rw [hRf]; exact hf)

theorem scanLoop_cwb (env : Env) :
    ∀ (fs : List String) (st : ScanState) (w : List String),
    cwb w st.events → cwb w (scanLoop env st fs).1.events := by
  intro fs
  induction fs with
  | nil =>
    intro st w h
    simpa [scanLoop] using h
  | cons f rest ih =>
    intro st w h
    rcases hfind : st.mem.find? (fun c => c.fileName == f) with _ | r0
    case none =>
      rcases hproc : processNewComic env st f with ⟨st2, oe⟩
      have hcwb2 : cwb w st2.events := by
        have hstep := processNewComic_cwb env st f w h
        rw [hproc] at hstep
        exact hstep
      cases oe with
      | none =>
        have hloop : scanLoop env st (f :: rest) = scanLoop env st2 rest := by
          simp [scanLoop, hfind, hproc]
        rw [hloop]
        exact ih st2 w hcwb2
      | some e =>
        have hloop : scanLoop env st (f :: rest) = (st2, some e) := by
          simp [scanLoop, hfind, hproc]
        rw [hloop]
        exact hcwb2
    case some =>
      have hloop : scanLoop env st (f :: rest) = scanLoop env st rest := by
        simp [scanLoop, hfind]
      rw [hloop]
      exact ih st w h

theorem scanLoop_zipEvents (env : Env) :
    ∀ (fs : List String) (st : ScanState),
    (∀ g ∈ fs, strToLower (pathExtname g) = ".zip") →
    (∀ ev ∈ st.events, zipOnlyEvent ev) →
    ∀ ev ∈ (scanLoop env st fs).1.events, zipOnlyEvent ev := by
  intro fs
  induction fs with
  | nil =>
    intro st _ hev
    simpa [scanLoop] using hev
  | cons f rest ih =>
    intro st hfs hev
    rcases hfind : st.mem.find? (fun c => c.fileName == f) with _ | r0
    case none =>
      rcases hproc : processNewComic env st f with ⟨st2, oe⟩
      have hev2 : ∀ ev ∈ st2.events, zipOnlyEvent ev := by
        have hstep := processNewComic_zipEvents env st f (hfs f (List.mem_cons_self _ _)) hev
        rw [hproc] at hstep
        exact hstep
      cases oe with
      | none =>
        have hloop : scanLoop env st (f :: rest) = scanLoop env st2 rest := by
          simp [scanLoop, hfind, hproc]
        rw [hloop]
        exact ih st2 (fun g hg => hfs g (List.mem_cons_of_mem _ hg)) hev2
      | some e =>
        have hloop : scanLoop env st (f :: rest) = (st2, some e) := by
          simp [scanLoop, hfind, hproc]
        rw [hloop]
        exact hev2
    case some =>
      have hloop : scanLoop env st (f :: rest) = scanLoop env st rest := by
        simp [scanLoop, hfind]
      rw [hloop]
      exact ih st (fun g hg => hfs g (List.mem_cons_of_mem _ hg)) hev

/- ### Claim C3 -/

/-- Claim C3: reconciliation is idempotent.  For an archive file with at
least one qualifying image and no existing record, a reconciliation pass
that completes without error creates exactly one ComicRecord for it; a
second immediate pass over the same directory changes neither the in-memory
collection nor the durable snapshot and reports no error; and the
at-most-one-record-per-fileName invariant is preserved. -/
theorem scan_idempotent (env : Env) (st : ScanState) (files : List String)
    (f : String) (es : List ZipEntry) (st1 : ScanState)
    (hscan : scanComicsDirectory env st files = (st1, none))
    (hnew : st.mem.countP (fun r => r.fileName == f) = 0)
    (hf : f ∈ files)
    (hzip : (strToLower (pathExtname f) == ".zip") = true)
    (harch : env.archives (pathJoin COMICS_DIR f) = some es)
    (himg : classifyImages es ≠ []) :
    st1.mem.countP (fun r => r.fileName == f) = 1 ∧
    (scanComicsDirectory env st1 files).1.mem = st1.mem ∧
    (scanComicsDirectory env st1 files).1.disk = st1.disk ∧
    (scanComicsDirectory env st1 files).2 = none ∧
    (∀ g, st.mem.countP (fun r => r.fileName == g) ≤ 1 →
      st1.mem.countP (fun r => r.fileName == g) ≤ 1) := by
  unfold scanComicsDirectory at hscan ⊢
  have hfF : f ∈ files.filter (fun file => strToLower (pathExtname file) == ".zip") :=
    List.mem_filter.mpr ⟨hf, hzip⟩
  have hsucc : (scanLoop env st
      (files.filter (fun file => strToLower (pathExtname file) == ".zip"))).2 = none := by
    rw [hscan]
  have hsettled := scanLoop_settled env
    (files.filter (fun file => strToLower (pathExtname file) == ".zip")) st st1 hscan
  have hnoop := scanLoop_noop env
    (files.filter (fun file => strToLower (pathExtname file) == ".zip")) st1 hsettled
  refine ⟨?_, hnoop.1, hnoop.2.1, hnoop.2.2, ?_⟩
  · have hcount := scanLoop_count_one env f es harch himg
      (files.filter (fun file => strToLower (pathExtname file) == ".zip")) st hfF hnew hsucc
    rw [hscan] at hcount
    exact hcount
  · intro g hg
    have hle := scanLoop_count_le_one env g
      (files.filter (fun file => strToLower (pathExtname file) == ".zip")) st hg
    rw [hscan] at hle
    exact hle

/-- Claim C3, witness: scanning a fresh state over good.zip yields exactly
one record for it, and an immediate second scan leaves the collection
unchanged. -/
theorem scan_idempotent_witness :
    (scanComicsDirectory goodEnv st0 ["good.zip"]).1.mem.countP
        (fun r => r.fileName == "good.zip") = 1 ∧
    (scanComicsDirectory goodEnv (scanComicsDirectory goodEnv st0 ["good.zip"]).1
        ["good.zip"]).1.mem =
      (scanComicsDirectory goodEnv st0 ["good.zip"]).1.mem := by
  have h := scan_idempotent goodEnv st0 ["good.zip"] "good.zip"
    [ZipEntry.mk "a.jpg" false [7]]
    (scanComicsDirectory goodEnv st0 ["good.zip"]).1
    (by decide) (by decide) (by decide) (by decide) (by decide) (by decide)
  exact ⟨h.1, h.2.1⟩

/- ### Claim C4 -/

/-- Claim C4: every ComicRecord ever appended to the index has pageCount at
least 1 and a non-empty cover reference (a zero-image archive never becomes
a record), and in the effect trace every record append is preceded by the
write of that record's cover file — the cover is written, and the cover
field assigned, before the record is appended and persisted. -/
theorem scan_record_invariants (env : Env) (st : ScanState) (files : List String)
    (st1 : ScanState) (e : Option JsError)
    (hscan : scanComicsDirectory env st files = (st1, e))
    (hmem : ∀ r ∈ st.mem, RecordOk r)
    (hev : cwb [] st.events) :
    (∀ r ∈ st1.mem, RecordOk r) ∧ cwb [] st1.events := by
  unfold scanComicsDirectory at hscan
  constructor
  · obtain ⟨t, ht, htp⟩ := scanLoop_mem_shape env
      (files.filter (fun file => strToLower (pathExtname file) == ".zip")) st
    have ht2 : st1.mem = st.mem ++ t := by
      rw [hscan] at ht
      exact ht
    intro r hr
    rw [ht2] at hr
    rcases List.mem_append.mp hr with h1 | h1
    · exact hmem r h1
    · exact ⟨(htp r h1).2.1, (htp r h1).2.2⟩
  · have hpres := scanLoop_cwb env
      (files.filter (fun file => strToLower (pathExtname file) == ".zip")) st [] hev
    rw [hscan] at hpres
    exact hpres

/-- Claim C4, witness: after scanning good.zip from a fresh state, the
created record satisfies the invariants and the trace has its cover write
before its append. -/
theorem scan_record_invariants_witness :
    RecordOk (builtRecord goodEnv st0 "good.zip" 1) ∧
    cwb [] (scanComicsDirectory goodEnv st0 ["good.zip"]).1.events := by
  have h := scan_record_invariants goodEnv st0 ["good.zip"]
    (scanComicsDirectory goodEnv st0 ["good.zip"]).1
    (scanComicsDirectory goodEnv st0 ["good.zip"]).2 rfl
    (by intro r hr; simp [st0] at hr) trivial
  exact ⟨h.1 _ (by decide), h.2⟩

/- ### Claim C5 -/

/-- Claim C5, counterexample: with bad.zip unreadable and good.zip readable
and holding one image, the reconciliation pass aborts at bad.zip with the
AdmZip error and good.zip is never processed in that pass — one bad archive
does abort the reconciliation of the remaining archives, and the file is
not merely skipped. -/
theorem scan_abort_cex :
    (scanComicsDirectory goodEnv st0 ["bad.zip", "good.zip"]).2 =
      some JsError.archiveUnreadable ∧
    (scanComicsDirectory goodEnv st0 ["bad.zip", "good.zip"]).1.mem = [] ∧
    goodEnv.archives (pathJoin COMICS_DIR "good.zip") =
      some [ZipEntry.mk "a.jpg" false [7]] ∧
    classifyImages [ZipEntry.mk "a.jpg" false [7]] ≠ [] := by
  decide

/-- Claim C5 (amended): an archive that cannot be opened makes the AdmZip
constructor throw, and scanComicsDirectory has no per-file error handling,
so the whole reconciliation pass aborts at that file: records created for
files earlier in the listing are kept, files after it are not processed in
that pass, and no failure state is recorded for the bad file (its record is
still absent, so it is retried on the next pass). -/
theorem scan_unreadable_aborts (env : Env) (st st1 : ScanState)
    (fs1 fs2 : List String) (f : String)
    (hzips : ∀ g ∈ fs1 ++ f :: fs2, (strToLower (pathExtname g) == ".zip") = true)
    (h1 : scanLoop env st fs1 = (st1, none))
    (hfind : st1.mem.find? (fun c => c.fileName == f) = none)
    (hbad : env.archives (pathJoin COMICS_DIR f) = none) :
    scanComicsDirectory env st (fs1 ++ f :: fs2) =
      ({ st1 with events := st1.events ++ [Event.openArchive (pathJoin COMICS_DIR f)] },
       some JsError.archiveUnreadable) := by
  unfold scanComicsDirectory
  rw [List.filter_eq_self.mpr hzips]
  rw [scanLoop_append env fs1 st st1 h1 (f :: fs2)]
  have hproc := processNewComic_unreadable env st1 f hbad
  simp [scanLoop, hfind, hproc]

/-- Claim C5 (amended), witness: the pass over [bad.zip, good.zip] stops at
bad.zip with the archive error and an unchanged (empty) collection. -/
theorem scan_unreadable_aborts_witness :
    scanComicsDirectory goodEnv st0 ["bad.zip", "good.zip"] =
      ({ st0 with events := [Event.openArchive (pathJoin COMICS_DIR "bad.zip")] },
       some JsError.archiveUnreadable) := by
  have h := scan_unreadable_aborts goodEnv st0 st0 [] ["good.zip"] "bad.zip"
    (by decide) (by decide) (by decide) (by decide)
  exact h

/- ### Claim C8 -/

/-- Claim C8, counterexample: with a failing durable write, processNewComic
pushes the record onto the in-memory comicsDB first and then fails the
snapshot write — the append does not fail as a whole: the in-memory
collection and the durable state are left diverged (the record is in memory
but not on disk). -/
theorem append_persist_diverges :
    (processNewComic persistFailEnv st0 "good.zip").2 = some JsError.persistFailure ∧
    (processNewComic persistFailEnv st0 "good.zip").1.mem =
      [builtRecord persistFailEnv st0 "good.zip" 1] ∧
    (processNewComic persistFailEnv st0 "good.zip").1.disk = [] ∧
    (processNewComic persistFailEnv st0 "good.zip").1.mem ≠
      (processNewComic persistFailEnv st0 "good.zip").1.disk := by
  decide

/-- Claim C8 (amended): append plus persist is not one logical unit.  When
persisting the durable snapshot fails, the error propagates but the record
already pushed stays in the in-memory collection while the durable snapshot
keeps its previous content: the two states diverge until a later successful
persist or a restart (on restart the durable state without the record leads
to a clean re-index, so no duplicate records result). -/
theorem append_persist_not_atomic (env : Env) (st : ScanState) (f : String)
    (es : List ZipEntry) (c : ZipEntry) (rest : List ZipEntry)
    (harch : env.archives (pathJoin COMICS_DIR f) = some es)
    (himg : classifyImages es = c :: rest)
    (hcov : env.coverWriteOk (coverPathFor (env.newId st.nextId)) = true)
    (hper : env.persistOk = false) :
    (processNewComic env st f).2 = some JsError.persistFailure ∧
    (processNewComic env st f).1.mem =
      st.mem ++ [builtRecord env st f (c :: rest).length] ∧
    (processNewComic env st f).1.disk = st.disk := by
  rw [processNewComic_persistFail env st f es c rest harch himg hcov hper]
  exact ⟨rfl, rfl, rfl⟩

/-- Claim C8 (amended), witness: with the failing persist environment, the
append reports the persist failure and the durable snapshot is unchanged
while the in-memory collection holds the new record. -/
theorem append_persist_not_atomic_witness :
    (processNewComic persistFailEnv st0 "good.zip").2 = some JsError.persistFailure ∧
    (processNewComic persistFailEnv st0 "good.zip").1.disk = [] := by
  have h := append_persist_not_atomic persistFailEnv st0 "good.zip"
    [ZipEntry.mk "a.jpg" false [7]] (ZipEntry.mk "a.jpg" false [7]) []
    (by decide) (by decide) (by decide) (by decide)
  exact ⟨h.1, h.2.2⟩

/- ### Claim C10 -/

/-- Claim C10: reconciliation only ever considers directory entries whose
lowercased extension is exactly .zip — every archive-open event and every
record appended during a scan is for a .zip file, so a file with any other
extension is never opened, never classified, and never produces a
ComicRecord. -/
theorem scan_considers_only_zip (env : Env) (st : ScanState) (files : List String)
    (st1 : ScanState) (e : Option JsError)
    (hscan : scanComicsDirectory env st files = (st1, e))
    (hev : ∀ ev ∈ st.events, zipOnlyEvent ev)
    (hmem : ∀ r ∈ st.mem, strToLower (pathExtname r.fileName) = ".zip") :
    (∀ ev ∈ st1.events, zipOnlyEvent ev) ∧
    (∀ r ∈ st1.mem, strToLower (pathExtname r.fileName) = ".zip") := by
  unfold scanComicsDirectory at hscan
  constructor
  · have hz : ∀ g ∈ files.filter (fun file => strToLower (pathExtname file) == ".zip"),
        strToLower (pathExtname g) = ".zip" := by
      intro g hg
      have hgz := (List.mem_filter.mp hg).2
      simpa using hgz
    have hpres := scanLoop_zipEvents env
      (files.filter (fun file => strToLower (pathExtname file) == ".zip")) st hz hev
    rw [hscan] at hpres
    exact hpres
  · obtain ⟨t, ht, htp⟩ := scanLoop_mem_shape env
      (files.filter (fun file => strToLower (pathExtname file) == ".zip")) st
    have ht2 : st1.mem = st.mem ++ t := by
      rw [hscan] at ht
      exact ht
    intro r hr
    rw [ht2] at hr
    rcases List.mem_append.mp hr with h1 | h1
    · exact hmem r h1
    · have hgmem := (htp r h1).1
      have hgz := (List.mem_filter.mp hgmem).2
      simpa using hgz

/-- Claim C10, witness: scanning [good.zip, notes.txt] from a fresh state,
the archive-open event is for the .zip file and the created record's
fileName has the .zip extension (notes.txt is never opened nor recorded). -/
theorem scan_considers_only_zip_witness :
    zipOnlyEvent (Event.openArchive (pathJoin COMICS_DIR "good.zip")) ∧
    strToLower (pathExtname (builtRecord goodEnv st0 "good.zip" 1).fileName) = ".zip" := by
  have h := scan_considers_only_zip goodEnv st0 ["good.zip", "notes.txt"]
    (scanComicsDirectory goodEnv st0 ["good.zip", "notes.txt"]).1
    (scanComicsDirectory goodEnv st0 ["good.zip", "notes.txt"]).2 rfl
    (by intro ev hev; simp [st0] at hev) (by intro r hr; simp [st0] at hr)
  exact ⟨h.1 _ (by decide), h.2 _ (by decide)⟩
